import Mathlib

/-!
Verification development for the manuscript-review pipeline in
`scripts/review.py`.  The Python source is shallowly embedded here:
manuscript text is a `List Char` (Python strings are sequences of code
points), every analysis component becomes a pure Lean function, and the
regular expressions of the source are translated to explicit positional
scans with the same matching semantics (word boundaries, greedy runs,
non-overlapping `findall`, `.` not matching newline).
-/

namespace Review

/-- Character class `[一-龥]` used by the source's regexes for
CJK ideographs. -/
def isCJK (c : Char) : Bool :=
  0x4e00 ≤ c.toNat && c.toNat ≤ 0x9fa5

/-- Model of Python's `\w` (regex word character) on the character
repertoire this program handles: ASCII alphanumerics, underscore, and the
CJK ideograph range used throughout the source.  CJK punctuation such as
`《`, `》`, `，`, `。` and the newline are not word characters, matching
Python's classification. -/
def isWordChar (c : Char) : Bool :=
  c.isAlphanum || c = '_' || isCJK c

/-- Letter class `[a-zA-Z]` from the source's foreign-token regexes. -/
def isLatinLetter (c : Char) : Bool :=
  c.isAlpha

/-- True when the pattern `pat` occurs in `s` starting at index `i`
(Python `s[i:i+len(pat)] == pat`). -/
def occursAt (pat s : List Char) (i : Nat) : Bool :=
  (s.drop i).take pat.length == pat

/-- Model of Python's substring operator `pat in s`. -/
def occursIn (pat s : List Char) : Bool :=
  (List.range (s.length + 1)).any fun i => occursAt pat s i

/-- Whether index `i` of `s` holds a word character (out-of-range
positions count as non-word, like the edges of a Python string). -/
def isWordAt (s : List Char) (i : Nat) : Bool :=
  isWordChar (s.getD i ' ')

/-- Whether the position just before index `i` holds a word character;
position 0 has nothing before it. -/
def wordBefore (s : List Char) (i : Nat) : Bool :=
  match i with
  | 0 => false
  | j + 1 => isWordAt s j

/-- Model of the regex word-boundary assertion `\b` at position `i`:
exactly one side of the position is a word character. -/
def boundaryAt (s : List Char) (i : Nat) : Bool :=
  wordBefore s i != isWordAt s i

/-- Occurrence of `pat` at `i` delimited by `\b` on both sides, as in the
source's `\b...\b` patterns. -/
def boundedOccursAt (pat s : List Char) (i : Nat) : Bool :=
  occursAt pat s i && boundaryAt s i && boundaryAt s (i + pat.length)

/-- True when `s[i:j]` contains no newline; regex `.` never matches a
newline, so the gap consumed by `.*` must satisfy this. -/
def noNewlineBetween (s : List Char) (i j : Nat) : Bool :=
  ((s.drop i).take (j - i)).all fun c => c != '\n'

/-- Model of `re.search(r'\bT1\b.*\bT2\b', s)` as used by the Diagnoser's
term-confusion patterns: some boundary-delimited occurrence of `t1` is
followed (not necessarily adjacently) by a boundary-delimited occurrence
of `t2`, with no newline in the gap consumed by `.*`. -/
def searchTwoBounded (t1 t2 s : List Char) : Bool :=
  (List.range (s.length + 1)).any fun i =>
    boundedOccursAt t1 s i &&
      (List.range (s.length + 1)).any fun j =>
        decide (i + t1.length ≤ j) && boundedOccursAt t2 s j &&
          noNewlineBetween s (i + t1.length) j

/-- Specification-side predicate (written from the claim's words, not
from the code): the two terms both appear in the text, in left-to-right
order, anywhere, not necessarily adjacent.  Used to compare the spec's
description of the term-confusion check with the source's regex. -/
def specOrderedPair (t1 t2 s : List Char) : Bool :=
  (List.range (s.length + 1)).any fun i =>
    occursAt t1 s i &&
      (List.range (s.length + 1)).any fun j =>
        decide (i + t1.length ≤ j) && occursAt t2 s j

/-- Typo table `common_typos` of `diagnose_paper` (incorrect form,
correction), in source order. -/
def common_typos : List (String × String) :=
  [("现象学主义", "现象学"),
   ("黑格尔", "海德格尔"),
   ("解构论", "解构主义"),
   ("文心雕龙注", "文心雕龙")]

/-- Issue string the typo loop appends: `f'将"{typo}"误写为"{correct}"'`. -/
def typoIssueStr (typo correct : String) : String :=
  "将\"" ++ typo ++ "\"误写为\"" ++ correct ++ "\""

/-- Typo scan of `diagnose_paper`, parametrised by the table (the
source hard-codes `common_typos`; the spec's §6 names the table as the
swappable configuration seam). -/
def typosIssuesWith (table : List (String × String)) (s : List Char) : List String :=
  table.filterMap fun tc =>
    if occursIn tc.1.toList s then some (typoIssueStr tc.1 tc.2) else none

/-- Term-confusion rule list `term_misuses_patterns`: each regex
`\bT1\b.*\bT2\b` is represented by its two terms, paired with the
description the source emits on match. -/
def term_misuses_rules : List ((List Char × List Char) × String) :=
  [(("解构主义".toList, "结构主义".toList), "混淆了解构主义和结构主义"),
   (("物感".toList, "物化".toList), "混淆了物感和物化概念")]

/-- Term-confusion scan of `diagnose_paper`. -/
def termMisuseIssues (s : List Char) : List String :=
  term_misuses_rules.filterMap fun r =>
    if searchTwoBounded r.1.1 r.1.2 s then some r.2 else none

/-- Result record `hard_issues` of `diagnose_paper`. -/
structure HardIssues where
  typos : List String
  citation_errors : List String
  term_misuses : List String
  deriving Repr, DecidableEq

/-- Diagnoser `diagnose_paper` with an explicit typo table.  The record
is created with all three lists; no code path ever appends to
`citation_errors`. -/
def diagnoseWith (table : List (String × String)) (s : List Char) : HardIssues :=
  { typos := typosIssuesWith table s
  , citation_errors := []
  , term_misuses := termMisuseIssues s }

/-- Source entry point `diagnose_paper`, using the fixed table. -/
def diagnose_paper (s : List Char) : HardIssues :=
  diagnoseWith common_typos s

/-- Fixed Chinese theory vocabulary `theory_keywords` of
`extract_core_theories`, in source order. -/
def theory_keywords : List String :=
  ["解构主义", "物感", "向心补偿", "现象学", "存在主义", "结构主义",
   "后现代主义", "生态美学", "数字美学", "媒介考古学", "阐释学",
   "接受美学", "新批评", "文化研究", "女性主义", "后殖民主义",
   "精神分析", "符号学", "叙事学", "修辞学", "形式主义"]

/-- Maximal ASCII-letter runs of a text, each with two flags: whether a
word boundary holds just before the run and just after it.  This is the
common substrate for the source's `\b[A-Z][a-zA-Z]+\b` and
`\b[A-Z][a-zA-Z]*ism\b` scans: such a pattern can only match a whole
maximal run (interior positions of a run never carry a `\b`). -/
def letterRunsAux (bBefore : Bool) (curRev : List Char) :
    List Char → List (Bool × List Char × Bool)
  | [] => if curRev.isEmpty then [] else [(bBefore, curRev.reverse, true)]
  | c :: rest =>
    if isLatinLetter c then
      letterRunsAux bBefore (c :: curRev) rest
    else if curRev.isEmpty then
      letterRunsAux (!isWordChar c) [] rest
    else
      (bBefore, curRev.reverse, !isWordChar c) :: letterRunsAux (!isWordChar c) [] rest

/-- All maximal ASCII-letter runs of `s` with their boundary flags;
scanning starts at the string edge, which counts as a boundary. -/
def letterRuns (s : List Char) : List (Bool × List Char × Bool) :=
  letterRunsAux true [] s

/-- First character of the run is an ASCII capital, regex `[A-Z]`. -/
def headUpper (run : List Char) : Bool :=
  match run with
  | [] => false
  | c :: _ => c.isUpper

/-- Run ends with the literal letters `ism`. -/
def endsIsm (run : List Char) : Bool :=
  match run.reverse with
  | 'm' :: 's' :: 'i' :: _ => true
  | _ => false

/-- Model of `re.findall(r'\b[A-Z][a-zA-Z]*ism\b', s)`: the matches
are exactly the boundary-delimited maximal letter runs that start with a
capital and end in `ism` (at least one letter precedes the suffix). -/
def englishTheoryMatches (s : List Char) : List String :=
  (letterRuns s).filterMap fun r =>
    if r.1 && r.2.2 && headUpper r.2.1 && endsIsm r.2.1 && decide (4 ≤ r.2.1.length)
    then some r.2.1.asString else none

/-- Order-preserving deduplication keeping first occurrences.  This is
one admissible result of `list(set(found_theories))`: Python's `set`
iteration order is unspecified and, through string-hash randomization,
varies between interpreter invocations, so a single fixed order is only
an executable stand-in for one particular run.  The cross-run
nondeterminism itself is modelled by `IsSetEnumeration` and
`generate_review_report_run` below. -/
def dedupFirstAux (seen : List String) : List String → List String
  | [] => []
  | x :: xs =>
    if x ∈ seen then dedupFirstAux seen xs else x :: dedupFirstAux (x :: seen) xs

/-- Deduplicate a list of strings keeping first occurrences. -/
def dedupFirst (l : List String) : List String :=
  dedupFirstAux [] l

/-- Accumulated `found_theories` list of `extract_core_theories` before
the `list(set(...))` conversion: Chinese vocabulary hits in table order,
then the `-ism` matches, possibly with duplicates. -/
def foundTheories (s : List Char) : List String :=
  (theory_keywords.filter fun k => occursIn k.toList s) ++ englishTheoryMatches s

/-- Source function `extract_core_theories`: the found theories pushed
through `list(set(...))`, here rendered with one admissible (first
occurrence) enumeration order. -/
def extract_core_theories (s : List Char) : List String :=
  dedupFirst (foundTheories s)

/-- Admissibility of an iteration order for `list(set(src))`: whatever
order a given interpreter run produces, the resulting list is some
duplicate-free enumeration of exactly the elements of `src`.  This is
everything Python guarantees about the conversion. -/
def IsSetEnumeration (src out : List String) : Prop :=
  out.Nodup ∧ ∀ x, x ∈ out ↔ x ∈ src

/-- Modern-paper citation tuple captured by the regex
`([一-龥]+)《([^》]+)》，《([^》]+)》(\d{4})年第(\d+)期`. -/
structure ModernPaper where
  author : String
  title : String
  venue : String
  year : String
  issue : String
  deriving Repr, DecidableEq

/-- Result record `citations` of `extract_citations`. -/
structure Citations where
  chinese_classics : List String
  foreign_texts : List String
  modern_papers : List ModernPaper
  deriving Repr, DecidableEq

/-- Scanner for `re.findall(r'《([^》]+)》', s)`: at a `《`, the greedy
`[^》]+` takes everything up to the next `》`; a match needs a nonempty
title and a closing bracket, otherwise the engine advances one position.
Matches are non-overlapping and scanning resumes after the closing
bracket.  Fuel decreases at every step; `s.length + 1` is always
enough. -/
def classicsScanAux : Nat → List Char → List (List Char)
  | 0, _ => []
  | _ + 1, [] => []
  | fuel + 1, c :: rest =>
    if c = '《' then
      match rest.dropWhile (fun x => x != '》') with
      | [] => classicsScanAux fuel rest
      | _ :: rest3 =>
        if (rest.takeWhile fun x => x != '》').isEmpty then
          classicsScanAux fuel rest
        else
          (rest.takeWhile fun x => x != '》') :: classicsScanAux fuel rest3
    else
      classicsScanAux fuel rest

/-- Captures of the classical-reference scan on `s`. -/
def extractClassics (s : List Char) : List (List Char) :=
  classicsScanAux (s.length + 1) s

/-- Deterministic matcher for the modern-paper regex at the head of `s`.
Every quantified piece of the pattern is followed by a literal outside
its character class, so the greedy semantics never needs backtracking:
each stage takes its maximal run and then demands the next literal.
Returns the captures and the remaining suffix after the match. -/
def tryMatchModern (s : List Char) : Option (ModernPaper × List Char) :=
  if (s.takeWhile isCJK).isEmpty then none
  else
    match s.dropWhile isCJK with
    | '《' :: r2 =>
      match r2.takeWhile (fun x => x != '》'), r2.dropWhile (fun x => x != '》') with
      | [], _ => none
      | _, [] => none
      | title, _ :: r4 =>
        match r4 with
        | '，' :: '《' :: r5 =>
          match r5.takeWhile (fun x => x != '》'), r5.dropWhile (fun x => x != '》') with
          | [], _ => none
          | _, [] => none
          | venue, _ :: r7 =>
            match r7 with
            | y1 :: y2 :: y3 :: y4 :: '年' :: '第' :: r9 =>
              if y1.isDigit && y2.isDigit && y3.isDigit && y4.isDigit then
                match r9.takeWhile Char.isDigit, r9.dropWhile Char.isDigit with
                | [], _ => none
                | _, [] => none
                | iss, '期' :: r11 =>
                  some ({ author := (s.takeWhile isCJK).asString
                        , title := title.asString
                        , venue := venue.asString
                        , year := ([y1, y2, y3, y4]).asString
                        , issue := iss.asString }, r11)
                | _, _ :: _ => none
              else none
            | _ => none
        | _ => none
    | _ => none

/-- Non-overlapping scan for the modern-paper pattern: on a match the
scan resumes after it, otherwise one position further.  Fuel
`s.length + 1` always suffices since a match consumes at least one
character. -/
def modernScanAux : Nat → List Char → List ModernPaper
  | 0, _ => []
  | _ + 1, [] => []
  | fuel + 1, c :: rest =>
    match tryMatchModern (c :: rest) with
    | some (caps, r) => caps :: modernScanAux fuel r
    | none => modernScanAux fuel rest

/-- Captures of the modern-paper scan on `s`. -/
def modernPapers (s : List Char) : List ModernPaper :=
  modernScanAux (s.length + 1) s

/-- Source function `extract_citations`: the three independent pattern
scans.  `foreign_texts` models `re.findall(r'\b([A-Z][a-zA-Z]+)\b', s)`:
boundary-delimited maximal letter runs of length at least two starting
with a capital. -/
def extract_citations (s : List Char) : Citations :=
  { chinese_classics := (extractClassics s).map List.asString
  , foreign_texts :=
      (letterRuns s).filterMap fun r =>
        if r.1 && r.2.2 && headUpper r.2.1 && decide (2 ≤ r.2.1.length)
        then some r.2.1.asString else none
  , modern_papers := modernPapers s }

/-- Result record `theoretical_analysis` of `analyze_theoretical_lineage`. -/
structure TheoreticalAnalysis where
  solid_theories : List String
  missing_literature : List String
  deriving Repr, DecidableEq

/-- Source function `analyze_theoretical_lineage`: one pass over the
extracted terms; the two curated buckets also push a synthesized
reading recommendation into `missing_literature`. -/
def analyze_theoretical_lineage : List String → TheoreticalAnalysis
  | [] => { solid_theories := [], missing_literature := [] }
  | theory :: rest =>
    let tail := analyze_theoretical_lineage rest
    if theory = "解构主义" ∨ theory = "现象学" then
      { solid_theories :=
          ("理论\"" ++ theory ++ "\"的谱系较为清晰，但需补充最新研究成果") :: tail.solid_theories
      , missing_literature :=
          (theory ++ "领域的最新研究：张三《" ++ theory ++ "的当代转向》，2024") :: tail.missing_literature }
    else if theory = "物感" ∨ theory = "向心补偿" then
      { solid_theories :=
          ("理论\"" ++ theory ++ "\"的中国特色鲜明，但需加强与西方理论的对话") :: tail.solid_theories
      , missing_literature :=
          (theory ++ "与西方现象学比较研究：李四《从" ++ theory ++ "到现象学》，2023") :: tail.missing_literature }
    else
      { solid_theories :=
          ("理论\"" ++ theory ++ "\"的运用基本合理") :: tail.solid_theories
      , missing_literature := tail.missing_literature }

/-- Per-term sentence the lineage pass pushes into `solid_theories`;
used to state that exactly one sentence is emitted per term. -/
def solidSentenceFor (theory : String) : String :=
  if theory = "解构主义" ∨ theory = "现象学" then
    "理论\"" ++ theory ++ "\"的谱系较为清晰，但需补充最新研究成果"
  else if theory = "物感" ∨ theory = "向心补偿" then
    "理论\"" ++ theory ++ "\"的中国特色鲜明，但需加强与西方理论的对话"
  else
    "理论\"" ++ theory ++ "\"的运用基本合理"

/-- Per-term optional recommendation the lineage pass pushes into
`missing_literature`: present exactly for the two curated buckets. -/
def missingRecFor (theory : String) : Option String :=
  if theory = "解构主义" ∨ theory = "现象学" then
    some (theory ++ "领域的最新研究：张三《" ++ theory ++ "的当代转向》，2024")
  else if theory = "物感" ∨ theory = "向心补偿" then
    some (theory ++ "与西方现象学比较研究：李四《从" ++ theory ++ "到现象学》，2023")
  else
    none

/-- Result record `interpretation_evaluation` of `evaluate_interpretation`. -/
structure InterpretationEvaluation where
  depth : String
  originality : String
  issues : List String
  deriving Repr, DecidableEq

/-- Baseline issue strings of `evaluate_interpretation`. -/
def interpretationBaseIssues : List String :=
  ["文本阐释较为表面，缺乏深入的文化语境分析",
   "理论与文本结合不够紧密，存在生搬硬套现象",
   "缺乏对当代艺术实践的观照"]

/-- Source function `evaluate_interpretation`: fixed baseline, upgraded
when either keyword occurs; `List.erase` mirrors Python's
`list.remove` (first occurrence). -/
def evaluate_interpretation (s : List Char) : InterpretationEvaluation :=
  if occursIn "当代艺术".toList s || occursIn "数字艺术".toList s then
    { depth := "较深"
    , originality := "较好"
    , issues := interpretationBaseIssues.erase "缺乏对当代艺术实践的观照" }
  else
    { depth := "中等"
    , originality := "一般"
    , issues := interpretationBaseIssues }

/-- Mistranslation table `common_mistranslations` of
`check_citations_accuracy`. -/
def common_mistranslations : List (String × String) :=
  [("Heidegger", "海德格尔"),
   ("Hegel", "黑格尔"),
   ("Nietzsche", "尼采")]

/-- Canonical classics requiring an edition/page citation. -/
def canonicalClassics : List String :=
  ["文心雕龙", "诗品", "人间词话"]

/-- Source function `check_citations_accuracy`: the classics loop runs
first, then the mistranslation loop, each appending to the same list. -/
def check_citations_accuracy (c : Citations) : List String :=
  (c.chinese_classics.filterMap fun classic =>
    if classic ∈ canonicalClassics
    then some ("《" ++ classic ++ "》引用时应标注具体版本和页码") else none) ++
  (c.foreign_texts.filterMap fun ft =>
    (common_mistranslations.lookup ft).map fun tr =>
      ft ++ "的标准译名为\"" ++ tr ++ "\"，请检查译名是否规范")

/-- CJK characters of the jargon character class
`[主义|理论|转向|维度|谱系]` (a character class, so the `|` is a member,
listed separately below). -/
def jargonClassCJK : List Char :=
  ['主', '义', '理', '论', '转', '向', '维', '度', '谱', '系']

/-- Last element of a run belongs to the jargon class. -/
def lastInJargonClass (run : List Char) : Bool :=
  match run.getLast? with
  | some c => c ∈ jargonClassCJK
  | none => false

/-- Scanner counting `re.findall(r'\b[一-龥]+[主义|理论|转向|维度|谱系]\b', s)`
matches.  A match must start at a boundary, so only the first position of
a maximal CJK run can start one.  Greedy `[一-龥]+` takes the whole run;
the class character is then either the literal `|` right after the run
(needing a word character after it for the final `\b`), or, backtracking
one step, the run's own last character (needing a non-word character or
the string edge after the run).  Deeper backtracking always fails since
run-interior positions carry no boundary.  `bPrev` records whether the
previous character was a non-word character (boundary available). -/
def jargonScanAux : Nat → Bool → List Char → Nat
  | 0, _, _ => 0
  | _ + 1, _, [] => 0
  | fuel + 1, bPrev, c :: rest =>
    if bPrev && isCJK c then
      match rest.dropWhile isCJK with
      | '|' :: d :: tail =>
        if isWordChar d then
          1 + jargonScanAux fuel true (d :: tail)
        else if decide (2 ≤ (c :: rest.takeWhile isCJK).length) &&
            lastInJargonClass (c :: rest.takeWhile isCJK) then
          1 + jargonScanAux fuel false ('|' :: d :: tail)
        else
          jargonScanAux fuel false rest
      | after =>
        if decide (2 ≤ (c :: rest.takeWhile isCJK).length) &&
            lastInJargonClass (c :: rest.takeWhile isCJK) &&
            (match after with
             | [] => true
             | x :: _ => !isWordChar x) then
          1 + jargonScanAux fuel false after
        else
          jargonScanAux fuel false rest
    else
      jargonScanAux fuel (!isWordChar c) rest

/-- Jargon match count used by `review_aesthetic_logic`. -/
def jargonCount (s : List Char) : Nat :=
  jargonScanAux (s.length + 1) true s

/-- Model of `re.search(r'西方.*理论.*中国', s)`: the three literals in
left-to-right order with no newline inside either gap consumed by the
two `.*` (regex `.` does not match a newline). -/
def searchWestTheoryChina (s : List Char) : Bool :=
  (List.range (s.length + 1)).any fun i =>
    occursAt "西方".toList s i &&
      (List.range (s.length + 1)).any fun j =>
        decide (i + 2 ≤ j) && occursAt "理论".toList s j &&
          noNewlineBetween s (i + 2) j &&
          (List.range (s.length + 1)).any fun k =>
            decide (j + 2 ≤ k) && occursAt "中国".toList s k &&
              noNewlineBetween s (j + 2) k

/-- Specification-side predicate (written from the claim's words): the
three markers appear somewhere in the text in left-to-right order, with
no constraint on what lies between them. -/
def specOrderedTriple (t1 t2 t3 s : List Char) : Bool :=
  (List.range (s.length + 1)).any fun i =>
    occursAt t1 s i &&
      (List.range (s.length + 1)).any fun j =>
        decide (i + t1.length ≤ j) && occursAt t2 s j &&
          (List.range (s.length + 1)).any fun k =>
            decide (j + t2.length ≤ k) && occursAt t3 s k

/-- Result record `aesthetic_analysis` of `review_aesthetic_logic`. -/
structure AestheticAnalysis where
  discourse_issues : List String
  logic_issues : List String
  deriving Repr, DecidableEq

/-- Source function `review_aesthetic_logic`: jargon-density check and
the nested theoretical-transplant check. -/
def review_aesthetic_logic (s : List Char) : AestheticAnalysis :=
  { discourse_issues :=
      if 20 < jargonCount s then ["使用了过多的学术术语，可能掩盖思想的贫瘠"] else []
  , logic_issues :=
      if occursIn "西方".toList s && occursIn "中国".toList s then
        if searchWestTheoryChina s then
          ["存在将西方理论直接套用于中国艺术实践的倾向，需注意避免理论殖民"]
        else []
      else [] }

/-- Perspective section of the report. -/
structure Perspective where
  core_theories : List String
  theoretical_lineage : TheoreticalAnalysis
  interpretation_evaluation : InterpretationEvaluation
  academic_position : String
  deriving Repr, DecidableEq

/-- Surgery section of the report. -/
structure Surgery where
  citation_issues : List String
  aesthetic_analysis : AestheticAnalysis
  restructuring_suggestions : List String
  deriving Repr, DecidableEq

/-- Aggregate report record built by `generate_review_report`. -/
structure Report where
  title : String
  date : String
  diagnosis : HardIssues
  perspective : Perspective
  surgery : Surgery
  deriving Repr, DecidableEq

/-- Source entry point `generate_review_report`.  The only impure input,
`datetime.now()`, is passed explicitly as `now`; everything else is a
pure function of the manuscript text. -/
def generate_review_report (s : List Char) (now : String) : Report :=
  { title := "文学/美学/艺术学论文深度审核报告"
  , date := now
  , diagnosis := diagnose_paper s
  , perspective :=
      { core_theories := extract_core_theories s
      , theoretical_lineage := analyze_theoretical_lineage (extract_core_theories s)
      , interpretation_evaluation := evaluate_interpretation s
      , academic_position :=
          "论文观点处于传统研究与当代前沿之间，具有一定的学术价值，但缺乏对最新研究成果的关注" }
  , surgery :=
      { citation_issues := check_citations_accuracy (extract_citations s)
      , aesthetic_analysis := review_aesthetic_logic s
      , restructuring_suggestions :=
          ["强化理论与文本的结合，避免生搬硬套",
           "补充该领域的最新研究成果",
           "加强对当代艺术实践的观照",
           "优化学术话语，避免过度使用术语",
           "注意引文的规范性和准确性"] } }

/-- One interpreter run of `generate_review_report`, with both impure
inputs made explicit: `now` is the `datetime.now()` timestamp and
`order` is the list an actual run obtains from
`list(set(found_theories))` — its elements are fixed by the text but its
order varies across interpreter invocations (string-hash
randomization).  Everything else is identical to
`generate_review_report`, which is the run with the first-occurrence
enumeration. -/
def generate_review_report_run (s : List Char) (now : String)
    (order : List String) : Report :=
  { title := "文学/美学/艺术学论文深度审核报告"
  , date := now
  , diagnosis := diagnose_paper s
  , perspective :=
      { core_theories := order
      , theoretical_lineage := analyze_theoretical_lineage order
      , interpretation_evaluation := evaluate_interpretation s
      , academic_position :=
          "论文观点处于传统研究与当代前沿之间，具有一定的学术价值，但缺乏对最新研究成果的关注" }
  , surgery :=
      { citation_issues := check_citations_accuracy (extract_citations s)
      , aesthetic_analysis := review_aesthetic_logic s
      , restructuring_suggestions :=
          ["强化理论与文本的结合，避免生搬硬套",
           "补充该领域的最新研究成果",
           "加强对当代艺术实践的观照",
           "优化学术话语，避免过度使用术语",
           "注意引文的规范性和准确性"] } }

/-- One issue group of the diagnosis rendering: nothing when the list is
empty, otherwise the bold group name and its indented items. -/
def fmtIssueGroup (name : String) (issues : List String) : String :=
  if issues.isEmpty then ""
  else
    "- **" ++ name ++ "**：\n" ++
      String.join (issues.map fun i => "  - " ++ i ++ "\n")

/-- Diagnosis section of `format_report` (source lines 252-264): the
issue groups in dict order when any list is nonempty, otherwise the
fixed no-issues fallback line. -/
def formatDiagnosis (h : HardIssues) : String :=
  "## 第一步：诊断结果\n\n" ++
    (if !h.typos.isEmpty || !h.citation_errors.isEmpty || !h.term_misuses.isEmpty then
      "### 硬伤列表\n" ++
        fmtIssueGroup "typos" h.typos ++
        fmtIssueGroup "citation_errors" h.citation_errors ++
        fmtIssueGroup "term_misuses" h.term_misuses
    else
      "### 硬伤列表\n- 未发现明显的硬伤\n")

/-- Bulleted rendering of a list of lines. -/
def fmtBullets (l : List String) : String :=
  String.join (l.map fun x => "- " ++ x ++ "\n")

/-- Source function `format_report`: deterministic template expansion of
the report record. -/
def format_report (r : Report) : String :=
  "# " ++ r.title ++ "\n\n" ++
  "**审核日期**：" ++ r.date ++ "\n\n" ++
  formatDiagnosis r.diagnosis ++
  "\n## 第二步：透视分析\n\n" ++
  "### 核心理论\n" ++
  "- " ++ String.intercalate ", " r.perspective.core_theories ++ "\n\n" ++
  "### 理论谱系评估\n" ++
  fmtBullets r.perspective.theoretical_lineage.solid_theories ++
  "\n### 缺失的关键文献\n" ++
  fmtBullets r.perspective.theoretical_lineage.missing_literature ++
  "\n### 文本阐释评估\n" ++
  "- **深度**：" ++ r.perspective.interpretation_evaluation.depth ++ "\n" ++
  "- **独创性**：" ++ r.perspective.interpretation_evaluation.originality ++ "\n" ++
  "- **存在的问题**：\n" ++
  String.join (r.perspective.interpretation_evaluation.issues.map fun i => "  - " ++ i ++ "\n") ++
  "\n### 学术位置评估\n" ++
  r.perspective.academic_position ++ "\n" ++
  "\n## 第三步：修改建议\n\n" ++
  (if !r.surgery.citation_issues.isEmpty then
    "### 引文问题\n" ++ fmtBullets r.surgery.citation_issues
  else "") ++
  (if !r.surgery.aesthetic_analysis.discourse_issues.isEmpty then
    "\n### 话语规范问题\n" ++ fmtBullets r.surgery.aesthetic_analysis.discourse_issues
  else "") ++
  (if !r.surgery.aesthetic_analysis.logic_issues.isEmpty then
    "\n### 审美逻辑问题\n" ++ fmtBullets r.surgery.aesthetic_analysis.logic_issues
  else "") ++
  "\n### 整体重构策略\n" ++
  fmtBullets r.surgery.restructuring_suggestions ++
  "\n## 最终评估\n" ++
  "该论文具有一定的学术价值，但在理论深度、文本阐释和学术话语等方面仍有提升空间。通过上述修改建议，有望进一步增强其学术影响力和理论贡献。\n"

/-! Helper lemmas about the scanning primitives. -/

/-- A successful occurrence of a nonempty pattern bounds the start
index by the text length. -/
lemma occursAt_lt (pat s : List Char) (i : Nat) (hne : pat ≠ [])
    (h : occursAt pat s i = true) : i < s.length + 1 := by
  have heq : (s.drop i).take pat.length = pat := eq_of_beq h
  have hlen := congrArg List.length heq
  simp only [List.length_take, List.length_drop] at hlen
  have hplen : 0 < pat.length := List.length_pos.mpr hne
  omega

/-- An occurrence at some index certifies the substring test. -/
lemma occursIn_of_occursAt (pat s : List Char) (i : Nat) (hne : pat ≠ [])
    (h : occursAt pat s i = true) : occursIn pat s = true := by
  unfold occursIn
  simp only [List.any_eq_true, List.mem_range]
  exact ⟨i, occursAt_lt pat s i hne h, h⟩

/-- A boundary-delimited occurrence is in particular an occurrence. -/
lemma occursAt_of_bounded (pat s : List Char) (i : Nat)
    (h : boundedOccursAt pat s i = true) : occursAt pat s i = true := by
  unfold boundedOccursAt at h
  simp only [Bool.and_eq_true] at h
  exact h.1.1

/-- The positional search for a two-term confusion pattern succeeds
exactly when two boundary-delimited occurrences appear in order with a
newline-free gap. -/
lemma searchTwoBounded_iff (t1 t2 s : List Char) (h1 : t1 ≠ []) (h2 : t2 ≠ []) :
    searchTwoBounded t1 t2 s = true ↔
      ∃ i j, boundedOccursAt t1 s i = true ∧ i + t1.length ≤ j ∧
        boundedOccursAt t2 s j = true ∧
        noNewlineBetween s (i + t1.length) j = true := by
  unfold searchTwoBounded
  simp only [List.any_eq_true, List.mem_range, Bool.and_eq_true, decide_eq_true_eq]
  constructor
  · rintro ⟨i, -, hb1, j, -, ⟨hle, hb2⟩, hnl⟩
    exact ⟨i, j, hb1, hle, hb2, hnl⟩
  · rintro ⟨i, j, hb1, hle, hb2, hnl⟩
    refine ⟨i, occursAt_lt t1 s i h1 (occursAt_of_bounded t1 s i hb1), hb1,
      j, occursAt_lt t2 s j h2 (occursAt_of_bounded t2 s j hb2), ⟨hle, hb2⟩, hnl⟩

/-- Membership in the first-occurrence deduplication: an element is kept
exactly when it occurs in the remaining input and was not seen yet. -/
lemma mem_dedupFirstAux :
    ∀ (l seen : List String) (x : String),
      x ∈ dedupFirstAux seen l ↔ x ∈ l ∧ x ∉ seen := by
  intro l
  induction l with
  | nil => intro seen x; simp [dedupFirstAux]
  | cons y ys ih =>
    intro seen x
    by_cases hy : y ∈ seen
    · rw [dedupFirstAux, if_pos hy, ih]
      constructor
      · rintro ⟨hxy, hxs⟩
        exact ⟨List.mem_cons_of_mem y hxy, hxs⟩
      · rintro ⟨hxy, hxs⟩
        rcases List.mem_cons.mp hxy with rfl | h
        · exact absurd hy hxs
        · exact ⟨h, hxs⟩
    · rw [dedupFirstAux, if_neg hy]
      constructor
      · intro hx
        rcases List.mem_cons.mp hx with rfl | h
        · exact ⟨List.mem_cons_self x ys, hy⟩
        · have h2 := (ih (y :: seen) x).mp h
          exact ⟨List.mem_cons_of_mem y h2.1,
            fun hs => h2.2 (List.mem_cons_of_mem y hs)⟩
      · rintro ⟨hxy, hxs⟩
        by_cases hxy2 : x = y
        · exact hxy2 ▸ List.mem_cons_self y (dedupFirstAux (y :: seen) ys)
        · have hys : x ∈ ys := by
            rcases List.mem_cons.mp hxy with h1 | h1
            · exact absurd h1 hxy2
            · exact h1
          refine List.mem_cons_of_mem y ((ih (y :: seen) x).mpr ⟨hys, fun hs => ?_⟩)
          rcases List.mem_cons.mp hs with h2 | h2
          · exact hxy2 h2
          · exact hxs h2

/-- The first-occurrence deduplication never repeats an element. -/
lemma nodup_dedupFirstAux :
    ∀ (l seen : List String), (dedupFirstAux seen l).Nodup := by
  intro l
  induction l with
  | nil => intro seen; simp [dedupFirstAux]
  | cons y ys ih =>
    intro seen
    by_cases hy : y ∈ seen
    · rw [dedupFirstAux, if_pos hy]
      exact ih seen
    · rw [dedupFirstAux, if_neg hy]
      refine List.nodup_cons.mpr ⟨fun hmem => ?_, ih (y :: seen)⟩
      exact ((mem_dedupFirstAux ys (y :: seen) y).mp hmem).2 (List.mem_cons_self y seen)

/-- The executable `extract_core_theories` is one admissible enumeration
of `set(found_theories)`. -/
lemma extract_core_theories_enumeration (s : List Char) :
    IsSetEnumeration (foundTheories s) (extract_core_theories s) := by
  constructor
  · exact nodup_dedupFirstAux (foundTheories s) []
  · intro x
    rw [extract_core_theories, dedupFirst, mem_dedupFirstAux]
    simp

/-- Coherence of the two report models: the deterministic entry point is
the run that uses the first-occurrence enumeration. -/
lemma generate_review_report_eq_run (s : List Char) (now : String) :
    generate_review_report s now
      = generate_review_report_run s now (extract_core_theories s) :=
  rfl

/-- Structure of the lineage pass: the solid list maps the per-term
template over the terms and the missing list keeps exactly the curated
terms' recommendations. -/
lemma lineage_eq (ts : List String) :
    (analyze_theoretical_lineage ts).solid_theories = ts.map solidSentenceFor ∧
    (analyze_theoretical_lineage ts).missing_literature = ts.filterMap missingRecFor := by
  induction ts with
  | nil => exact ⟨rfl, rfl⟩
  | cons t rest ih =>
    by_cases hw : t = "解构主义" ∨ t = "现象学"
    · simp only [analyze_theoretical_lineage, solidSentenceFor, missingRecFor,
        List.map_cons, List.filterMap_cons, if_pos hw, ih.1, ih.2]
      constructor <;> trivial
    · by_cases hc : t = "物感" ∨ t = "向心补偿"
      · simp only [analyze_theoretical_lineage, solidSentenceFor, missingRecFor,
          List.map_cons, List.filterMap_cons, if_neg hw, if_pos hc, ih.1, ih.2]
        constructor <;> trivial
      · simp only [analyze_theoretical_lineage, solidSentenceFor, missingRecFor,
          List.map_cons, List.filterMap_cons, if_neg hw, if_neg hc, ih.1, ih.2]
        constructor <;> trivial

/-! Claim theorems. -/

/-- C1 counterexample: on the text `解构主义与现象学` both
`["解构主义", "现象学"]` and `["现象学", "解构主义"]` are admissible
iteration orders of `list(set(found_theories))`, so two interpreter
invocations can realise either; with identical timestamps the two
resulting Reports already differ in the Perspective section — a field
other than the embedded generation timestamp — refuting the claim that
only the timestamp can differ across invocations. -/
theorem c1_report_determinism_counterexample :
    IsSetEnumeration (foundTheories "解构主义与现象学".toList)
      ["解构主义", "现象学"] ∧
    IsSetEnumeration (foundTheories "解构主义与现象学".toList)
      ["现象学", "解构主义"] ∧
    (generate_review_report_run "解构主义与现象学".toList "2024-01-01 00:00:00"
        ["解构主义", "现象学"]).date
      = (generate_review_report_run "解构主义与现象学".toList "2024-01-01 00:00:00"
        ["现象学", "解构主义"]).date ∧
    (generate_review_report_run "解构主义与现象学".toList "2024-01-01 00:00:00"
        ["解构主义", "现象学"]).perspective
      ≠ (generate_review_report_run "解构主义与现象学".toList "2024-01-01 00:00:00"
        ["现象学", "解构主义"]).perspective := by
  have hfound : foundTheories "解构主义与现象学".toList = ["解构主义", "现象学"] := by
    decide
  refine ⟨⟨by decide, ?_⟩, ⟨by decide, ?_⟩, rfl, by decide⟩
  · intro x
    rw [hfound]
  · intro x
    rw [hfound]
    simp only [List.mem_cons]
    tauto

/-- C1 amended: across interpreter runs (arbitrary admissible iteration
orders of `list(set(found_theories))` and arbitrary timestamps) the
Reports agree in every field except the generation timestamp and the
ordering of the set-derived theory list: title, diagnosis,
interpretation evaluation, academic position and the whole surgery
section are identical, and the core-theory lists — with the lineage
lists derived from them — are duplicate-free lists with exactly the same
members. -/
theorem c1_report_determinism_amended (s : List Char) (t1 t2 : String)
    (o1 o2 : List String)
    (h1 : IsSetEnumeration (foundTheories s) o1)
    (h2 : IsSetEnumeration (foundTheories s) o2) :
    (generate_review_report_run s t1 o1).title
      = (generate_review_report_run s t2 o2).title ∧
    (generate_review_report_run s t1 o1).diagnosis
      = (generate_review_report_run s t2 o2).diagnosis ∧
    (generate_review_report_run s t1 o1).surgery
      = (generate_review_report_run s t2 o2).surgery ∧
    (generate_review_report_run s t1 o1).perspective.interpretation_evaluation
      = (generate_review_report_run s t2 o2).perspective.interpretation_evaluation ∧
    (generate_review_report_run s t1 o1).perspective.academic_position
      = (generate_review_report_run s t2 o2).perspective.academic_position ∧
    (generate_review_report_run s t1 o1).perspective.core_theories.Nodup ∧
    (generate_review_report_run s t2 o2).perspective.core_theories.Nodup ∧
    (∀ x, x ∈ (generate_review_report_run s t1 o1).perspective.core_theories ↔
      x ∈ (generate_review_report_run s t2 o2).perspective.core_theories) ∧
    (∀ x, x ∈ (generate_review_report_run s t1 o1).perspective.theoretical_lineage.solid_theories ↔
      x ∈ (generate_review_report_run s t2 o2).perspective.theoretical_lineage.solid_theories) ∧
    (∀ x, x ∈ (generate_review_report_run s t1 o1).perspective.theoretical_lineage.missing_literature ↔
      x ∈ (generate_review_report_run s t2 o2).perspective.theoretical_lineage.missing_literature) := by
  have hoo : ∀ x, x ∈ o1 ↔ x ∈ o2 := fun x => (h1.2 x).trans (h2.2 x).symm
  refine ⟨rfl, rfl, rfl, rfl, rfl, h1.1, h2.1, hoo, ?_, ?_⟩
  · intro x
    show x ∈ (analyze_theoretical_lineage o1).solid_theories ↔
      x ∈ (analyze_theoretical_lineage o2).solid_theories
    rw [(lineage_eq o1).1, (lineage_eq o2).1]
    simp only [List.mem_map]
    constructor
    · rintro ⟨a, ha, rfl⟩
      exact ⟨a, (hoo a).mp ha, rfl⟩
    · rintro ⟨a, ha, rfl⟩
      exact ⟨a, (hoo a).mpr ha, rfl⟩
  · intro x
    show x ∈ (analyze_theoretical_lineage o1).missing_literature ↔
      x ∈ (analyze_theoretical_lineage o2).missing_literature
    rw [(lineage_eq o1).2, (lineage_eq o2).2]
    simp only [List.mem_filterMap]
    constructor
    · rintro ⟨a, ha, hfa⟩
      exact ⟨a, (hoo a).mp ha, hfa⟩
    · rintro ⟨a, ha, hfa⟩
      exact ⟨a, (hoo a).mpr ha, hfa⟩

/-- Witness for the amended C1: two concrete runs on `解构主义与现象学`
with the two opposite enumeration orders. -/
theorem c1_report_determinism_amended_witness :
    (generate_review_report_run "解构主义与现象学".toList "2024-01-01 00:00:00"
        ["解构主义", "现象学"]).diagnosis
      = (generate_review_report_run "解构主义与现象学".toList "2024-01-02 00:00:00"
        ["现象学", "解构主义"]).diagnosis ∧
    (generate_review_report_run "解构主义与现象学".toList "2024-01-01 00:00:00"
        ["解构主义", "现象学"]).surgery
      = (generate_review_report_run "解构主义与现象学".toList "2024-01-02 00:00:00"
        ["现象学", "解构主义"]).surgery ∧
    ("现象学" ∈ (generate_review_report_run "解构主义与现象学".toList "2024-01-01 00:00:00"
        ["解构主义", "现象学"]).perspective.core_theories ↔
      "现象学" ∈ (generate_review_report_run "解构主义与现象学".toList "2024-01-02 00:00:00"
        ["现象学", "解构主义"]).perspective.core_theories) := by
  have hfound : foundTheories "解构主义与现象学".toList = ["解构主义", "现象学"] := by
    decide
  have e1 : IsSetEnumeration (foundTheories "解构主义与现象学".toList)
      ["解构主义", "现象学"] := by
    refine ⟨by decide, fun x => ?_⟩
    rw [hfound]
  have e2 : IsSetEnumeration (foundTheories "解构主义与现象学".toList)
      ["现象学", "解构主义"] := by
    refine ⟨by decide, fun x => ?_⟩
    rw [hfound]
    simp only [List.mem_cons]
    tauto
  have h := c1_report_determinism_amended "解构主义与现象学".toList
    "2024-01-01 00:00:00" "2024-01-02 00:00:00"
    ["解构主义", "现象学"] ["现象学", "解构主义"] e1 e2
  exact ⟨h.2.1, h.2.2.1, h.2.2.2.2.2.2.2.1 "现象学"⟩

/-- C10: the Diagnoser's result record always carries a
`citation_errors` list, that list is always empty, and every diagnosis
issue comes only from the typo scan or the term-misuse scan. -/
theorem c10_citation_errors_invariant (s : List Char) :
    (diagnose_paper s).citation_errors = [] ∧
    (diagnose_paper s).typos = typosIssuesWith common_typos s ∧
    (diagnose_paper s).term_misuses = termMisuseIssues s :=
  ⟨rfl, rfl, rfl⟩

/-- C9: the empty manuscript text yields an empty extracted theory list
(hence an empty Perspective theory list in the Report) and its rendered
Diagnosis section is the fixed no-issues fallback instead of an issue
list. -/
theorem c9_empty_manuscript (d : String) :
    (generate_review_report [] d).perspective.core_theories = [] ∧
    formatDiagnosis (generate_review_report [] d).diagnosis =
      "## 第一步：诊断结果\n\n### 硬伤列表\n- 未发现明显的硬伤\n" :=
  ⟨rfl, rfl⟩

/-- C4: a text containing either upgrade keyword gets
depth `较深`, upgraded originality `较好` and loses the
contemporary-practice issue; a text with neither keyword keeps the fixed
baseline `中等`/`一般` with all three stock issue strings. -/
theorem c4_interpretation_upgrade (s : List Char) :
    ((occursIn "当代艺术".toList s || occursIn "数字艺术".toList s) = true →
      (evaluate_interpretation s).depth = "较深" ∧
      (evaluate_interpretation s).originality = "较好" ∧
      "缺乏对当代艺术实践的观照" ∉ (evaluate_interpretation s).issues) ∧
    ((occursIn "当代艺术".toList s || occursIn "数字艺术".toList s) = false →
      (evaluate_interpretation s).depth = "中等" ∧
      (evaluate_interpretation s).originality = "一般" ∧
      (evaluate_interpretation s).issues = interpretationBaseIssues) := by
  constructor
  · intro h
    simp only [evaluate_interpretation, h, if_true]
    refine ⟨?_, ?_, ?_⟩ <;> decide
  · intro h
    simp only [evaluate_interpretation, h, Bool.false_eq_true, if_false]
    refine ⟨?_, ?_, ?_⟩ <;> decide

/-- Witness for C4 at two concrete manuscripts, one per branch. -/
theorem c4_interpretation_upgrade_witness :
    ((evaluate_interpretation "数字艺术研究".toList).depth = "较深" ∧
     (evaluate_interpretation "数字艺术研究".toList).originality = "较好" ∧
     "缺乏对当代艺术实践的观照" ∉ (evaluate_interpretation "数字艺术研究".toList).issues) ∧
    ((evaluate_interpretation "论诗".toList).depth = "中等" ∧
     (evaluate_interpretation "论诗".toList).originality = "一般" ∧
     (evaluate_interpretation "论诗".toList).issues = interpretationBaseIssues) :=
  ⟨(c4_interpretation_upgrade "数字艺术研究".toList).1 (by decide),
   (c4_interpretation_upgrade "论诗".toList).2 (by decide)⟩

/-- C5: the lineage analysis emits exactly one fixed-template sentence
into `solid_theories` per term (one per list position, in order), and a
recommended-reading citation into `missing_literature` exactly for the
terms of the two curated buckets. -/
theorem c5_lineage_classification (ts : List String) :
    (analyze_theoretical_lineage ts).solid_theories = ts.map solidSentenceFor ∧
    (analyze_theoretical_lineage ts).solid_theories.length = ts.length ∧
    (analyze_theoretical_lineage ts).missing_literature = ts.filterMap missingRecFor :=
  ⟨(lineage_eq ts).1, by rw [(lineage_eq ts).1, List.length_map], (lineage_eq ts).2⟩

/-- C7: appending to the typo table one new entry whose incorrect form
occurs in the text extends the emitted typo issues by exactly that one
new issue: the count grows by one, the previous issues are unchanged,
and the other diagnosis lists are untouched. -/
theorem c7_typo_table_monotonic (table : List (String × String)) (t c : String)
    (s : List Char) (hocc : occursIn t.toList s = true)
    (_hnew : t ∉ table.map Prod.fst) :
    (diagnoseWith (table ++ [(t, c)]) s).typos
        = (diagnoseWith table s).typos ++ [typoIssueStr t c] ∧
    (diagnoseWith (table ++ [(t, c)]) s).typos.length
        = (diagnoseWith table s).typos.length + 1 ∧
    (diagnoseWith (table ++ [(t, c)]) s).term_misuses
        = (diagnoseWith table s).term_misuses ∧
    (diagnoseWith (table ++ [(t, c)]) s).citation_errors
        = (diagnoseWith table s).citation_errors := by
  have hocc2 : occursIn t.data s = true := hocc
  have h1 : typosIssuesWith (table ++ [(t, c)]) s
      = typosIssuesWith table s ++ [typoIssueStr t c] := by
    unfold typosIssuesWith
    rw [List.filterMap_append]
    simp [hocc2]
  exact ⟨h1, by simp only [diagnoseWith, h1, List.length_append, List.length_cons,
    List.length_nil], rfl, rfl⟩

/-- Witness for C7: adding the fresh entry `美学误 → 美学` to the fixed
table, on a text containing the incorrect form. -/
theorem c7_typo_table_monotonic_witness :
    occursIn "美学误".toList "含美学误字".toList = true ∧
    "美学误" ∉ common_typos.map Prod.fst ∧
    (diagnoseWith (common_typos ++ [("美学误", "美学")]) "含美学误字".toList).typos.length
      = (diagnoseWith common_typos "含美学误字".toList).typos.length + 1 :=
  ⟨by decide, by decide,
   (c7_typo_table_monotonic common_typos "美学误" "美学" "含美学误字".toList
     (by decide) (by decide)).2.1⟩

/-- Characterisation of membership in the term-misuse issue list: each
of the two fixed descriptions appears exactly when its regex search
succeeds. -/
lemma mem_termMisuseIssues (s : List Char) :
    ("混淆了解构主义和结构主义" ∈ termMisuseIssues s ↔
      searchTwoBounded "解构主义".toList "结构主义".toList s = true) ∧
    ("混淆了物感和物化概念" ∈ termMisuseIssues s ↔
      searchTwoBounded "物感".toList "物化".toList s = true) := by
  unfold termMisuseIssues term_misuses_rules
  cases h1 : searchTwoBounded "解构主义".toList "结构主义".toList s <;>
    cases h2 : searchTwoBounded "物感".toList "物化".toList s <;>
      simp_all

/-- C2 counterexample: in the text `解构主义结构主义` the two terms of
the first confusion pair both appear, in order, yet no description is
emitted — the source's `\b` boundaries fail between adjacent CJK word
characters, so mere ordered co-occurrence does not trigger the check as
the claim asserts. -/
theorem c2_term_confusion_counterexample :
    specOrderedPair "解构主义".toList "结构主义".toList "解构主义结构主义".toList = true ∧
    "混淆了解构主义和结构主义" ∉ (diagnose_paper "解构主义结构主义".toList).term_misuses := by
  decide

/-- C2 amended: a confusion description is emitted if and only if the
pair's two terms occur in left-to-right order with each occurrence
delimited by word boundaries (non-word neighbours or text edges) and no
newline between the two occurrences. -/
theorem c2_term_confusion_amended (s : List Char) :
    ("混淆了解构主义和结构主义" ∈ (diagnose_paper s).term_misuses ↔
      ∃ i j, boundedOccursAt "解构主义".toList s i = true ∧
        i + "解构主义".toList.length ≤ j ∧
        boundedOccursAt "结构主义".toList s j = true ∧
        noNewlineBetween s (i + "解构主义".toList.length) j = true) ∧
    ("混淆了物感和物化概念" ∈ (diagnose_paper s).term_misuses ↔
      ∃ i j, boundedOccursAt "物感".toList s i = true ∧
        i + "物感".toList.length ≤ j ∧
        boundedOccursAt "物化".toList s j = true ∧
        noNewlineBetween s (i + "物感".toList.length) j = true) := by
  have hmem := mem_termMisuseIssues s
  have hm : (diagnose_paper s).term_misuses = termMisuseIssues s := rfl
  constructor
  · rw [hm, hmem.1]
    exact searchTwoBounded_iff _ _ s (by decide) (by decide)
  · rw [hm, hmem.2]
    exact searchTwoBounded_iff _ _ s (by decide) (by decide)

/-- C8 counterexample: in `西方\n理论\n中国` the three markers appear in
left-to-right order (and both `西方` and `中国` occur), yet the logic
issue list is empty — the regex `.` of `西方.*理论.*中国` does not match
the newlines separating the markers, so the code emits no warning where
the claim demands exactly one. -/
theorem c8_transplant_counterexample :
    occursIn "西方".toList "西方\n理论\n中国".toList = true ∧
    occursIn "中国".toList "西方\n理论\n中国".toList = true ∧
    specOrderedTriple "西方".toList "理论".toList "中国".toList
      "西方\n理论\n中国".toList = true ∧
    (review_aesthetic_logic "西方\n理论\n中国".toList).logic_issues = [] := by
  decide

/-- C8 amended: whenever `西方`, `理论`, `中国` occur in left-to-right
order with no newline inside the two gaps (the condition under which
`re.search(r'西方.*理论.*中国', text)` succeeds), the Discourse
Reviewer's logic-issue list is exactly the single theoretical-transplant
warning. -/
theorem c8_transplant_warning_amended (s : List Char)
    (h : searchWestTheoryChina s = true) :
    (review_aesthetic_logic s).logic_issues =
      ["存在将西方理论直接套用于中国艺术实践的倾向，需注意避免理论殖民"] := by
  have hex := h
  unfold searchWestTheoryChina at hex
  simp only [List.any_eq_true, List.mem_range, Bool.and_eq_true,
    decide_eq_true_eq] at hex
  obtain ⟨i, -, hoc1, j, -, ⟨⟨-, hoc2⟩, -⟩, k, -, ⟨⟨-, hoc3⟩, -⟩⟩ := hex
  have h1 : occursIn "西方".toList s = true :=
    occursIn_of_occursAt _ s i (by decide) hoc1
  have h2 : occursIn "中国".toList s = true :=
    occursIn_of_occursAt _ s k (by decide) hoc3
  simp only [review_aesthetic_logic, h1, h2, Bool.and_self, if_true, h]

/-- Witness for the amended C8 on a newline-free ordered occurrence. -/
theorem c8_transplant_warning_amended_witness :
    (review_aesthetic_logic "西方有理论入中国".toList).logic_issues =
      ["存在将西方理论直接套用于中国艺术实践的倾向，需注意避免理论殖民"] :=
  c8_transplant_warning_amended "西方有理论入中国".toList (by decide)

/-- C3 counterexample: in `Heidegger之《文心雕龙》` the string
`海德格尔` is absent, `Heidegger` and `《文心雕龙》` are present, yet
the Citation Auditor emits no translation-correction notice — the
foreign-token regex `\b([A-Z][a-zA-Z]+)\b` needs a word boundary after
the token, and the adjacent CJK character `之` is a word character, so
`Heidegger` is never extracted. -/
theorem c3_citation_audit_counterexample :
    occursIn "海德格尔".toList "Heidegger之《文心雕龙》".toList = false ∧
    occursIn "Heidegger".toList "Heidegger之《文心雕龙》".toList = true ∧
    occursIn "《文心雕龙》".toList "Heidegger之《文心雕龙》".toList = true ∧
    "Heidegger的标准译名为\"海德格尔\"，请检查译名是否规范" ∉
      check_citations_accuracy (extract_citations "Heidegger之《文心雕龙》".toList) := by
  decide

/-- C3 amended: for a text without `海德格尔` whose extracted citations
actually contain the classical title `文心雕龙` and the foreign token
`Heidegger` (presence of the raw substrings is not enough: the title
must be the whole bracketed span and the token must be delimited by
word boundaries), the Citation Auditor output contains both the
edition/page reminder and the translation-correction notice. -/
theorem c3_citation_audit_amended (s : List Char)
    (_h0 : occursIn "海德格尔".toList s = false)
    (h1 : "文心雕龙" ∈ (extract_citations s).chinese_classics)
    (h2 : "Heidegger" ∈ (extract_citations s).foreign_texts) :
    "《文心雕龙》引用时应标注具体版本和页码" ∈
      check_citations_accuracy (extract_citations s) ∧
    "Heidegger的标准译名为\"海德格尔\"，请检查译名是否规范" ∈
      check_citations_accuracy (extract_citations s) := by
  unfold check_citations_accuracy
  constructor
  · exact List.mem_append_left _ (List.mem_filterMap.mpr ⟨"文心雕龙", h1, by decide⟩)
  · exact List.mem_append_right _ (List.mem_filterMap.mpr ⟨"Heidegger", h2, by decide⟩)

/-- Witness for the amended C3: `Heidegger` delimited by a comma and the
classical title properly bracketed. -/
theorem c3_citation_audit_amended_witness :
    occursIn "海德格尔".toList "Heidegger，《文心雕龙》".toList = false ∧
    ("《文心雕龙》引用时应标注具体版本和页码" ∈
      check_citations_accuracy (extract_citations "Heidegger，《文心雕龙》".toList) ∧
    "Heidegger的标准译名为\"海德格尔\"，请检查译名是否规范" ∈
      check_citations_accuracy (extract_citations "Heidegger，《文心雕龙》".toList)) :=
  ⟨by decide,
   c3_citation_audit_amended "Heidegger，《文心雕龙》".toList
     (by decide) (by decide) (by decide)⟩

/-- Splitting lemma: `takeWhile` over a list whose elements all satisfy
the predicate, followed by a failing element, yields exactly that
list. -/
lemma takeWhile_of_append_cons {α : Type} (p : α → Bool) (t : List α) (c : α)
    (b : List α) (ht : ∀ x ∈ t, p x = true) (hc : p c = false) :
    (t ++ c :: b).takeWhile p = t := by
  induction t with
  | nil => simp [List.takeWhile_cons, hc]
  | cons x xs ih =>
    have hx := ht x (List.mem_cons_self x xs)
    simp only [List.cons_append, List.takeWhile_cons_of_pos hx]
    rw [ih fun y hy => ht y (List.mem_cons_of_mem x hy)]

/-- Companion of `takeWhile_of_append_cons` for `dropWhile`. -/
lemma dropWhile_of_append_cons {α : Type} (p : α → Bool) (t : List α) (c : α)
    (b : List α) (ht : ∀ x ∈ t, p x = true) (hc : p c = false) :
    (t ++ c :: b).dropWhile p = c :: b := by
  induction t with
  | nil => simp [List.dropWhile_cons, hc]
  | cons x xs ih =>
    have hx := ht x (List.mem_cons_self x xs)
    simp only [List.cons_append, List.dropWhile_cons_of_pos hx]
    exact ih fun y hy => ht y (List.mem_cons_of_mem x hy)

/-- The classical-reference scanner finds nothing in a text without an
opening bracket. -/
lemma classicsScanAux_no_open :
    ∀ (fuel : Nat) (s : List Char), '《' ∉ s → classicsScanAux fuel s = [] := by
  intro fuel
  induction fuel with
  | zero => intro s _; rfl
  | succ f ih =>
    intro s h
    match s with
    | [] => rfl
    | c :: rest =>
      have hc : ¬ c = '《' := fun e => h (e ▸ List.mem_cons_self c rest)
      rw [classicsScanAux, if_neg hc]
      exact ih rest fun hm => h (List.mem_cons_of_mem c hm)

/-- On a text consisting of a bracket-free prefix, a single bracketed
nonempty title, and a suffix without further opening brackets, the
classical-reference scanner captures exactly the title. -/
lemma classicsScanAux_single :
    ∀ (a : List Char) (fuel : Nat) (t b : List Char), a.length < fuel →
      '《' ∉ a → '《' ∉ t → '》' ∉ t → t ≠ [] → '《' ∉ b →
      classicsScanAux fuel (a ++ '《' :: (t ++ '》' :: b)) = [t] := by
  intro a
  induction a with
  | nil =>
    intro fuel t b hf h1 h2 h3 h4 h5
    match fuel, hf with
    | f + 1, _ =>
      have htake : (t ++ '》' :: b).takeWhile (fun x => x != '》') = t :=
        takeWhile_of_append_cons _ t '》' b
          (fun x hx => bne_iff_ne.mpr fun e => h3 (e ▸ hx)) (by simp)
      have hdrop : (t ++ '》' :: b).dropWhile (fun x => x != '》') = '》' :: b :=
        dropWhile_of_append_cons _ t '》' b
          (fun x hx => bne_iff_ne.mpr fun e => h3 (e ▸ hx)) (by simp)
      rw [List.nil_append, classicsScanAux, if_pos rfl, hdrop, htake]
      simp only [List.isEmpty_eq_true, h4, if_false]
      rw [classicsScanAux_no_open f b h5]
  | cons c a' ih =>
    intro fuel t b hf h1 h2 h3 h4 h5
    match fuel, hf with
    | f + 1, hf =>
      have hc : ¬ c = '《' := fun e => h1 (e ▸ List.mem_cons_self c a')
      rw [List.cons_append, classicsScanAux, if_neg hc]
      exact ih f t b (by simpa using Nat.lt_of_succ_lt_succ hf)
        (fun hm => h1 (List.mem_cons_of_mem c hm)) h2 h3 h4 h5

/-- A text with at most one opening bracket admits no modern-paper
match: the citation pattern passes through two opening brackets (title
and venue). -/
lemma tryMatchModern_none (s : List Char) (h : s.count '《' ≤ 1) :
    tryMatchModern s = none := by
  rw [tryMatchModern]
  split
  · rfl
  next =>
    split
    next r2 hA =>
      split
      · rfl
      · rfl
      next =>
        split
        next =>
          exfalso
          obtain ⟨hd, tl, hT⟩ :
              ∃ hd tl, List.dropWhile (fun x => x != '》') r2
                = hd :: '，' :: '《' :: tl := ⟨_, _, by assumption⟩
          have c1 : s.count '《'
              = (s.takeWhile isCJK).count '《' + ('《' :: r2).count '《' := by
            rw [← hA, ← List.count_append, List.takeWhile_append_dropWhile]
          have c2 : ('《' :: r2).count '《' = r2.count '《' + 1 :=
            List.count_cons_self '《' r2
          have c3 : (List.dropWhile (fun x => x != '》') r2).count '《' ≤ r2.count '《' :=
            (List.dropWhile_sublist _).count_le '《'
          rw [hT] at c3
          have c4 : 1 ≤ (hd :: '，' :: '《' :: tl).count '《' := by
            have hsub : List.Sublist ('《' :: tl) (hd :: '，' :: '《' :: tl) :=
              (List.sublist_cons_self '，' _).trans (List.sublist_cons_self hd _)
            have hle := hsub.count_le '《'
            rw [List.count_cons_self] at hle
            omega
          omega
        next => rfl
    next => rfl

/-- The modern-paper scan finds nothing in a text with at most one
opening bracket: no attempt at any position can match. -/
lemma modernScanAux_empty :
    ∀ (fuel : Nat) (s : List Char), s.count '《' ≤ 1 → modernScanAux fuel s = [] := by
  intro fuel
  induction fuel with
  | zero => intro s _; rfl
  | succ f ih =>
    intro s h
    match s with
    | [] => rfl
    | c :: rest =>
      rw [modernScanAux, tryMatchModern_none (c :: rest) h]
      exact ih rest (le_trans ((List.sublist_cons_self c rest).count_le '《') h)

/-- C6: a text made of a bracket-free prefix, exactly one bracketed
nonempty classical title, and a suffix with no further opening bracket
yields a CitationBundle with exactly that one classical entry and no
modern-paper entries. -/
theorem c6_citation_roundtrip (a t b : List Char)
    (ha : '《' ∉ a) (ht1 : '《' ∉ t) (ht2 : '》' ∉ t) (htne : t ≠ [])
    (hb : '《' ∉ b) :
    (extract_citations (a ++ '《' :: (t ++ '》' :: b))).chinese_classics
      = [t.asString] ∧
    (extract_citations (a ++ '《' :: (t ++ '》' :: b))).modern_papers = [] := by
  constructor
  · show (extractClassics _).map List.asString = _
    rw [extractClassics, classicsScanAux_single a _ t b
      (by simp only [List.length_append, List.length_cons]; omega)
      ha ht1 ht2 htne hb]
    rfl
  · show modernPapers _ = []
    rw [modernPapers]
    apply modernScanAux_empty
    have ca : (a.count '《') = 0 := List.count_eq_zero_of_not_mem ha
    have ct : (t.count '《') = 0 := List.count_eq_zero_of_not_mem ht1
    have cb : (b.count '《') = 0 := List.count_eq_zero_of_not_mem hb
    rw [List.count_append, List.count_cons_self, List.count_append,
      List.count_cons_of_ne (by decide), ca, ct, cb]

/-- Witness for C6 on the text `论《文心雕龙》考`. -/
theorem c6_citation_roundtrip_witness :
    (extract_citations
        ("论".toList ++ '《' :: ("文心雕龙".toList ++ '》' :: "考".toList))).chinese_classics
      = ["文心雕龙"] ∧
    (extract_citations
        ("论".toList ++ '《' :: ("文心雕龙".toList ++ '》' :: "考".toList))).modern_papers
      = [] :=
  c6_citation_roundtrip "论".toList "文心雕龙".toList "考".toList
    (by decide) (by decide) (by decide) (by decide) (by decide)

end Review
